import Mathlib

/-!
Shallow embedding of the core of the `gabelstaplerwm` tiling window manager:
the client registry (`src/wm/client.rs`), the tag-set/history structures, and
the two stack layouts (`src/wm/layout/vstack.rs`, `src/wm/layout/hstack.rs`).

Machine integers are modelled as `Nat`/`Int` with explicit wraparound where
the Rust code can overflow (`u16` geometry arithmetic wraps modulo 2^16, the
`as usize` cast of an `isize` wraps modulo 2^64, matching release-mode Rust).
Rust `HashMap`s are modelled as association lists with unique keys; `Weak`
client references are modelled as the window key they were created from, and
upgrading a reference is a lookup in the owning client map.  Operations that
contain a `.unwrap()` or another panicking call are modelled as
`Option`-valued functions, `none` meaning a panic.
-/

/-- Tags (`wm::config::Tag`) are opaque symbolic labels; we model them as
naturals. -/
abbrev Tag := Nat

/-- X window handles (`xproto::Window`, an `u32`); the numeric bound is
irrelevant to the modelled code, so we use `Nat`. -/
abbrev Window := Nat

/-- `Iterator::position`: index of the first element satisfying the
predicate. -/
def list_position (p : α → Bool) : List α → Option Nat
  | [] => none
  | x :: xs => if p x then some 0 else (list_position p xs).map (· + 1)

/-- `Vec::swap i j`: exchange two elements (both indices are in bounds at
every call site modelled here; out of bounds we return the list unchanged). -/
def list_swap (l : List α) (i j : Nat) : List α :=
  match l.get? i, l.get? j with
  | some a, some b => (l.set i b).set j a
  | _, _ => l

/-- Rust `Option::or` (keep the first option if present). -/
def opt_or (a b : Option α) : Option α :=
  match a with
  | some x => some x
  | none => b

/-- `opt.iter().filter_map(..).next()` on an `Option`: keep the value only if
it satisfies the predicate. -/
def opt_keep (p : α → Bool) : Option α → Option α
  | some a => if p a then some a else none
  | none => none

/-- Wrapping `u16` addition. -/
def u16_add (a b : Nat) : Nat := (a + b) % 65536

/-- Wrapping `u16` subtraction (arguments are `u16` values, i.e. below
2^16). -/
def u16_sub (a b : Nat) : Nat := (a + 65536 - b % 65536) % 65536

/-- Wrapping `u16` multiplication. -/
def u16_mul (a b : Nat) : Nat := a * b % 65536

/-- Rust `as usize` applied to an `isize`: two's-complement reinterpretation,
i.e. reduction modulo 2^64 into `[0, 2^64)`. -/
def usize_of_isize (z : Int) : Nat := (z % (2 ^ 64 : Int)).toNat

/-- `u8::saturating_sub` (on `Nat` representatives of `u8` values this is
truncated subtraction). -/
def u8_saturating_sub (a b : Nat) : Nat := a - b

/-- `u8::saturating_add` on `Nat` representatives of `u8` values. -/
def u8_saturating_add (a b : Nat) : Nat := min (a + b) 255

/-- Usable screen region (`ScreenSize`), fields as used by the layout code:
`width`, `height`, `offset_x`, `offset_y`, all `u16`. -/
structure ScreenSize where
  width : Nat
  height : Nat
  offset_x : Nat
  offset_y : Nat
deriving Repr, DecidableEq

/-- A window geometry (`Geometry`): position and size, all `u16`. -/
structure Geometry where
  x : Nat
  y : Nat
  width : Nat
  height : Nat
deriving Repr, DecidableEq

/-- Layout mutation messages (`LayoutMessage`), the variants handled by
`VStack::edit_layout`: absolute master factor (`u8`), relative master factor
(`i8`), absolute and relative fixed-flag toggles. -/
inductive LayoutMessage where
  | masterFactorAbs (mf : Nat)
  | masterFactorRel (mf : Int)
  | fixedAbs (f : Bool)
  | fixedRel
deriving Repr, DecidableEq

/-- The vertical stack layout (`VStack`): master window on one side, slave
stack splitting the other side vertically. -/
structure VStack where
  master_factor : Nat
  inverted : Bool
  fixed : Bool
deriving Repr, DecidableEq

/-- `VStack::default()`. -/
def VStack.default : VStack := ⟨50, false, false⟩

/-- `VStack::arrange`.  All `u16` arithmetic wraps; `i` ranges over
`1..num_windows` in the Rust loop, here `k = i - 1` over
`List.range (num_windows - 1)`. -/
def VStack.arrange (l : VStack) (num_windows : Nat) (screen : ScreenSize) :
    List (Option Geometry) :=
  let master_width :=
    if l.master_factor ≥ 100 then screen.width
    else u16_mul l.master_factor screen.width / 100
  if num_windows == 1 then
    let w := if l.fixed then master_width else screen.width
    [some ⟨screen.offset_x, screen.offset_y, u16_sub w 2, u16_sub screen.height 2⟩]
  else if num_windows > 1 then
    let mx_sx :=
      if l.inverted then (u16_sub screen.width master_width, 0)
      else (0, master_width)
    let master : Option Geometry :=
      some ⟨u16_add mx_sx.1 screen.offset_x, screen.offset_y,
            u16_sub master_width 2, u16_sub screen.height 2⟩
    let slave_height := screen.height / (num_windows - 1)
    let slaves := (List.range (num_windows - 1)).map (fun k =>
      some (⟨u16_add mx_sx.2 screen.offset_x,
             u16_add (u16_mul k slave_height) screen.offset_y,
             u16_sub (u16_sub screen.width master_width) 2,
             u16_sub slave_height 2⟩ : Geometry))
    master :: slaves
  else []

/-- `VStack::right_window`. -/
def VStack.right_window (l : VStack) (index max : Nat) : Option Nat :=
  if index == 0 then
    if !l.inverted && max ≥ 1 then some 1 else none
  else
    if l.inverted then some 0 else none

/-- `VStack::left_window`. -/
def VStack.left_window (l : VStack) (index max : Nat) : Option Nat :=
  if index == 0 then
    if l.inverted && max ≥ 1 then some 1 else none
  else
    if l.inverted then none else some 0

/-- `VStack::top_window` (ignores `max`). -/
def VStack.top_window (_l : VStack) (index _max : Nat) : Option Nat :=
  if index ≤ 1 then none else some (index - 1)

/-- `VStack::bottom_window`. -/
def VStack.bottom_window (_l : VStack) (index max : Nat) : Option Nat :=
  if index == 0 then some max
  else if index < max then some (index + 1)
  else none

/-- `VStack::edit_layout`.  `mf.abs() as u8` on an `i8` equals `Int.natAbs`
for every `i8` value, including `-128`. -/
def VStack.edit_layout (l : VStack) (msg : LayoutMessage) : VStack :=
  match msg with
  | .masterFactorAbs mf => { l with master_factor := mf % 100 }
  | .masterFactorRel mf =>
      { l with master_factor :=
          if mf < 0 then u8_saturating_sub l.master_factor mf.natAbs
          else u8_saturating_add l.master_factor mf.natAbs % 100 }
  | .fixedAbs f => { l with fixed := f }
  | .fixedRel => { l with fixed := !l.fixed }

/-- The horizontal stack layout (`HStack`). -/
structure HStack where
  master_factor : Nat
  inverted : Bool
  fixed : Bool
deriving Repr, DecidableEq

/-- `HStack::default()`. -/
def HStack.default : HStack := ⟨50, false, false⟩

/-- `HStack::arrange` (no screen offsets and no border subtraction in this
older layout). -/
def HStack.arrange (l : HStack) (num_windows : Nat) (screen : ScreenSize) :
    List (Option Geometry) :=
  let master_height :=
    if l.master_factor ≥ 100 then screen.height
    else u16_mul l.master_factor screen.height / 100
  if num_windows == 1 then
    let h := if l.fixed then master_height else screen.height
    [some ⟨0, 0, screen.width, h⟩]
  else if num_windows > 1 then
    let my_sy :=
      if l.inverted then (u16_sub screen.height master_height, 0)
      else (0, master_height)
    let master : Option Geometry :=
      some ⟨0, my_sy.1, screen.width, master_height⟩
    let slave_width := screen.width / (num_windows - 1)
    let slaves := (List.range (num_windows - 1)).map (fun k =>
      some (⟨u16_mul k slave_width, my_sy.2, slave_width,
             u16_sub screen.height master_height⟩ : Geometry))
    master :: slaves
  else []

/-- `HStack::right_window`. -/
def HStack.right_window (_l : HStack) (index max : Nat) : Option Nat :=
  if index == 0 then some max
  else if index < max then some (index + 1)
  else none

/-- `HStack::left_window` (ignores `max`). -/
def HStack.left_window (_l : HStack) (index _max : Nat) : Option Nat :=
  if index ≤ 1 then none else some (index - 1)

/-- `HStack::top_window`. -/
def HStack.top_window (l : HStack) (index max : Nat) : Option Nat :=
  if index == 0 then
    if l.inverted && max ≥ 1 then some 1 else none
  else
    if !l.inverted then some 0 else none

/-- `HStack::bottom_window`. -/
def HStack.bottom_window (l : HStack) (index max : Nat) : Option Nat :=
  if index == 0 then
    if !l.inverted && max ≥ 1 then some 1 else none
  else
    if l.inverted then some 0 else none

/-- Client properties (`ClientProps`): window type atom, name, class strings.
`class` is a Lean keyword, so the field is called `class_strings`. -/
structure ClientProps where
  window_type : Nat
  name : String
  class_strings : List String
deriving Repr, DecidableEq

/-- A managed window and its metadata (`Client`). -/
structure Client where
  window : Window
  props : ClientProps
  urgent : Bool
  tags : List Tag
deriving Repr, DecidableEq

/-- `Client::new`. -/
def Client.new (window : Window) (tags : List Tag) (props : ClientProps) : Client :=
  ⟨window, props, false, tags⟩

/-- `Client::set_tags`: replace the tag list, but only by a non-empty one. -/
def Client.set_tags (c : Client) (tags : List Tag) : Client :=
  if tags.length > 0 then { c with tags := tags } else c

/-- `Client::toggle_tag`: remove a present tag unless it is the last one,
append an absent tag. -/
def Client.toggle_tag (c : Client) (tag : Tag) : Client :=
  match list_position (fun t => t == tag) c.tags with
  | some index =>
      if c.tags.length > 1 then { c with tags := c.tags.eraseIdx index } else c
  | none => { c with tags := c.tags ++ [tag] }

/-- `Client::match_tags`: does the client's tag set intersect `tags`? -/
def Client.match_tags (c : Client) (tags : List Tag) : Bool :=
  c.tags.any (fun t => tags.any (fun t2 => t == t2))

/-- Window manager commands (`WmCommand`). -/
inductive WmCommand where
  | redraw
  | focus
  | kill (window : Window)
  | modeSwitch (mode : Nat)
  | quit
  | noCommand
deriving Repr, DecidableEq

/-- A weak client reference (`WeakClientRef`), modelled as the window key the
reference was created from; it upgrades exactly while an owned client is
stored under that key. -/
abbrev WeakClientRef := Window

/-- An entry in a `ClientSet`'s `order` map (`OrderEntry`): the optional focus
reference and the ordered list of member references. -/
abbrev OrderEntry := Option WeakClientRef × List WeakClientRef

/-- The client registry (`ClientSet`): the owning map of clients keyed by
window, and the cached per-tag-combination order entries.  Both `HashMap`s
are modelled as association lists with unique keys. -/
structure ClientSet where
  clients : List (Window × Client)
  order : List (List Tag × OrderEntry)
deriving Repr, DecidableEq

/-- `ClientSet::new`. -/
def ClientSet.new : ClientSet := ⟨[], []⟩

/-- `ClientSet::get_client_by_window`. -/
def ClientSet.get_client_by_window (s : ClientSet) (window : Window) : Option Client :=
  (s.clients.find? (fun p => p.1 == window)).map Prod.snd

/-- `Weak::upgrade` of a stored reference: resolves while the owning map
still holds a client under the reference's key. -/
def ClientSet.upgrade (s : ClientSet) (r : WeakClientRef) : Option Client :=
  s.get_client_by_window r

/-- Lookup of an order entry by its exact tag-combination key. -/
def ClientSet.order_lookup (s : ClientSet) (tags : List Tag) : Option OrderEntry :=
  (s.order.find? (fun p => p.1 == tags)).map Prod.snd

/-- `ClientSet::get_order_or_insert`: return the entry for a tag combination,
creating it on first use from all owned clients whose tags intersect it (the
first match becoming the initial focus).  Returns the updated set together
with the entry the Rust code hands out a mutable borrow of. -/
def ClientSet.get_order_or_insert (s : ClientSet) (tags : List Tag) :
    ClientSet × OrderEntry :=
  match s.order_lookup tags with
  | some entry => (s, entry)
  | none =>
      let clients := (s.clients.filter (fun p => (p.2).match_tags tags)).map (fun p => p.1)
      let focused := clients.head?
      ({ s with order := s.order ++ [(tags, (focused, clients))] }, (focused, clients))

/-- One entry of `ClientSet::clean`: drop decayed references, and reset a
decayed focus reference to the first remaining one. -/
def ClientSet.clean_entry (s : ClientSet) (e : OrderEntry) : OrderEntry :=
  let refs := e.2.filter (fun c => (s.upgrade c).isSome)
  let cur := if (e.1.bind (fun r => s.upgrade r)).isNone then refs.head? else e.1
  (cur, refs)

/-- `ClientSet::clean`. -/
def ClientSet.clean (s : ClientSet) : ClientSet :=
  { s with order := s.order.map (fun p => (p.1, s.clean_entry p.2)) }

/-- `ClientSet::is_ref_to_client`. -/
def ClientSet.is_ref_to_client (s : ClientSet) (r : WeakClientRef) (target : Client) : Bool :=
  ((s.upgrade r).map Client.window) == some target.window

/-- One entry of `ClientSet::fix_references`. -/
def ClientSet.fix_entry (s : ClientSet) (target : Client) (tags : List Tag)
    (e : OrderEntry) : OrderEntry :=
  if !(target.match_tags tags) then
    let refs := e.2.filter (fun r => !(s.is_ref_to_client r target))
    let cur := opt_or (opt_keep (fun r => !(s.is_ref_to_client r target)) e.1) refs.head?
    (cur, refs)
  else if (e.2.find? (fun r => s.is_ref_to_client r target)).isNone then
    let refs := e.2 ++ [target.window]
    let cur := opt_or e.1 refs.head?
    (cur, refs)
  else e

/-- `ClientSet::fix_references`: reconcile every order entry with the
(updated) target client. -/
def ClientSet.fix_references (s : ClientSet) (target : Client) : ClientSet :=
  { s with order := s.order.map (fun p => (p.1, s.fix_entry target p.1 p.2)) }

/-- `HashMap::insert`: replace the value under an existing key, append a new
key otherwise. -/
def insert_client (clients : List (Window × Client)) (window : Window) (c : Client) :
    List (Window × Client) :=
  if clients.any (fun p => p.1 == window) then
    clients.map (fun p => if p.1 == window then (window, c) else p)
  else clients ++ [(window, c)]

/-- `ClientSet::add`: insert the client as a new owned entry and, for every
already-materialized order entry whose key its tags intersect, append a
reference and focus it. -/
def ClientSet.add (s : ClientSet) (client : Client) : ClientSet :=
  let window := client.window
  { clients := insert_client s.clients window client,
    order := s.order.map (fun p =>
      if client.match_tags p.1 then (p.1, (some window, p.2.2 ++ [window])) else p) }

/-- `ClientSet::remove`: drop ownership and clean references; report whether
a client existed. -/
def ClientSet.remove (s : ClientSet) (window : Window) : Bool × ClientSet :=
  if s.clients.any (fun p => p.1 == window) then
    (true, ClientSet.clean { s with clients := s.clients.filter (fun p => p.1 != window) })
  else (false, s)

/-- `ClientSet::update_client`: apply a mutator to the client under a window
key (the Rust closure mutates through a `RefMut` and returns a `WmCommand`,
modelled as `Client → Client × WmCommand`), then fix all references. -/
def ClientSet.update_client (s : ClientSet) (window : Window)
    (func : Client → Client × WmCommand) : Option WmCommand × ClientSet :=
  match s.get_client_by_window window with
  | none => (none, s)
  | some c =>
      let c2 := (func c).1
      let s2 : ClientSet :=
        { s with clients := s.clients.map (fun p => if p.1 == window then (p.1, c2) else p) }
      (some (func c).2, s2.fix_references c2)

/-- `ClientSet::get_focused_window`. -/
def ClientSet.get_focused_window (s : ClientSet) (tags : List Tag) : Option Window :=
  ((s.order_lookup tags).bind (fun t => t.1)).bind
    (fun r => (s.upgrade r).map Client.window)

/-- `ClientSet::focus_offset`: move the focus reference of the entry for
`tags` by an index offset, wrapping through the `as usize` cast and then
modulo the member count.  Returns `none` when the Rust code would panic in
the `position(..).unwrap()` call. -/
def ClientSet.focus_offset (s : ClientSet) (tags : List Tag) (offset : Int) :
    Option ClientSet :=
  let s1e := s.get_order_or_insert tags
  let s1 := s1e.1
  let current := s1e.2.1
  let clients := s1e.2.2
  match current.bind (fun c => (s1.upgrade c).map Client.window) with
  | none => some s1
  | some current_window =>
      match list_position (fun client =>
          ((s1.upgrade client).map (fun r => r.window == current_window)).getD false)
          clients with
      | none => none
      | some current_index =>
          let new_index :=
            usize_of_isize ((current_index : Int) + offset) % clients.length
          match clients.get? new_index with
          | some new_client =>
              some { s1 with order := s1.order.map (fun p =>
                if p.1 == tags then (p.1, (some new_client, p.2.2)) else p) }
          | none => some s1

/-- `ClientSet::swap_offset`: like `focus_offset`, but exchange the two
positions in the member list instead of moving focus. -/
def ClientSet.swap_offset (s : ClientSet) (tags : List Tag) (offset : Int) :
    Option ClientSet :=
  let s1e := s.get_order_or_insert tags
  let s1 := s1e.1
  let current := s1e.2.1
  let clients := s1e.2.2
  match current.bind (fun c => (s1.upgrade c).map Client.window) with
  | none => some s1
  | some current_window =>
      match list_position (fun client =>
          ((s1.upgrade client).map (fun r => r.window == current_window)).getD false)
          clients with
      | none => none
      | some current_index =>
          let new_index :=
            usize_of_isize ((current_index : Int) + offset) % clients.length
          some { s1 with order := s1.order.map (fun p =>
            if p.1 == tags then (p.1, (p.2.1, list_swap p.2.2 current_index new_index)) else p) }

/-- `ClientSet::focus_direction`: move focus to a layout-supplied neighbor
index, silently ignoring an out-of-range answer. -/
def ClientSet.focus_direction (s : ClientSet) (tags : List Tag)
    (focus_func : Nat → Nat → Option Nat) : Option ClientSet :=
  let s1e := s.get_order_or_insert tags
  let s1 := s1e.1
  let current := s1e.2.1
  let clients := s1e.2.2
  match current.bind (fun c => (s1.upgrade c).map Client.window) with
  | none => some s1
  | some current_window =>
      match list_position (fun client =>
          ((s1.upgrade client).map (fun r => r.window == current_window)).getD false)
          clients with
      | none => none
      | some current_index =>
          match focus_func current_index (clients.length - 1) with
          | some new_index =>
              match clients.get? new_index with
              | some new_client =>
                  some { s1 with order := s1.order.map (fun p =>
                    if p.1 == tags then (p.1, (some new_client, p.2.2)) else p) }
              | none => some s1
          | none => some s1

/-- `ClientSet::swap_direction`: exchange the focused position with a
layout-supplied neighbor index if it is in bounds. -/
def ClientSet.swap_direction (s : ClientSet) (tags : List Tag)
    (focus_func : Nat → Nat → Option Nat) : Option ClientSet :=
  let s1e := s.get_order_or_insert tags
  let s1 := s1e.1
  let current := s1e.2.1
  let clients := s1e.2.2
  match current.bind (fun c => (s1.upgrade c).map Client.window) with
  | none => some s1
  | some current_window =>
      match list_position (fun client =>
          ((s1.upgrade client).map (fun r => r.window == current_window)).getD false)
          clients with
      | none => none
      | some current_index =>
          match focus_func current_index (clients.length - 1) with
          | some new_index =>
              if new_index < clients.length then
                some { s1 with order := s1.order.map (fun p =>
                  if p.1 == tags then
                    (p.1, (p.2.1, list_swap p.2.2 current_index new_index)) else p) }
              else some s1
          | none => some s1

/-- A set of tags with an associated layout (`TagSet`); the layout trait
object is a type parameter here. -/
structure TagSet (L : Type) where
  tags : List Tag
  layout : L
deriving Repr, DecidableEq

/-- `TagSet::toggle_tag` (no last-tag guard, unlike `Client::toggle_tag`). -/
def TagSet.toggle_tag (ts : TagSet L) (tag : Tag) : TagSet L :=
  match list_position (fun t => t == tag) ts.tags with
  | some index => { ts with tags := ts.tags.eraseIdx index }
  | none => { ts with tags := ts.tags ++ [tag] }

/-- `ClientSet::focus_next`. -/
def ClientSet.focus_next (s : ClientSet) (tagset : TagSet L) : Option ClientSet :=
  s.focus_offset tagset.tags 1

/-- `ClientSet::focus_prev`. -/
def ClientSet.focus_prev (s : ClientSet) (tagset : TagSet L) : Option ClientSet :=
  s.focus_offset tagset.tags (-1)

/-- `ClientSet::swap_next`. -/
def ClientSet.swap_next (s : ClientSet) (tagset : TagSet L) : Option ClientSet :=
  s.swap_offset tagset.tags 1

/-- `ClientSet::swap_prev`. -/
def ClientSet.swap_prev (s : ClientSet) (tagset : TagSet L) : Option ClientSet :=
  s.swap_offset tagset.tags (-1)

/-- The history stack of tag sets (`TagStack`); `mode` (the keyboard mode,
from the out-of-scope config module) is modelled as a `Nat`. -/
structure TagStack (L : Type) where
  tags : List (TagSet L)
  mode : Nat
deriving Repr, DecidableEq

/-- `TagStack::new`. -/
def TagStack.new : TagStack L := ⟨[], 0⟩

/-- `TagStack::push`: `drain(..len - 3)` removes the first `len - 3` elements
whenever the stack already holds at least 4, then the new tag set is
appended. -/
def TagStack.push (st : TagStack L) (tag : TagSet L) : TagStack L :=
  let len := st.tags.length
  let kept := if len ≥ 4 then st.tags.drop (len - 3) else st.tags
  { st with tags := kept ++ [tag] }

/-- `TagStack::swap_top`. -/
def TagStack.swap_top (st : TagStack L) : TagStack L :=
  if st.tags.length ≥ 2 then
    { st with tags := st.tags.dropLast.dropLast ++
        ((st.tags.getLast?.map (fun x => [x])).getD [] ++
         ((st.tags.dropLast.getLast?.map (fun x => [x])).getD [])) }
  else st

/-! ### Helper lemmas -/

theorem u16_add_eq {a b : Nat} (hab : a + b < 65536) : u16_add a b = a + b :=
  Nat.mod_eq_of_lt hab

theorem u16_mul_eq {a b : Nat} (hab : a * b < 65536) : u16_mul a b = a * b :=
  Nat.mod_eq_of_lt hab

theorem u16_sub_eq {a b : Nat} (hb : b ≤ a) (ha : a < 65536) : u16_sub a b = a - b := by
  unfold u16_sub
  omega

theorem eraseIdx_ne_nil {l : List α} (i : Nat) (h : 1 < l.length) :
    l.eraseIdx i ≠ [] := by
  cases l with
  | nil => simp at h
  | cons a l1 =>
    cases l1 with
    | nil => simp at h
    | cons b r => cases i <;> simp [List.eraseIdx]

/-! ### Claims about the tag structures -/

/-- Claim C5: a client with a non-empty tag list keeps it non-empty under
`toggle_tag` and `set_tags`; `toggle_tag` of the sole tag and `set_tags` of
the empty slice are no-ops. -/
theorem C5_client_tags_never_emptied (c : Client) (t : Tag) (ts : List Tag)
    (h : c.tags ≠ []) :
    (c.toggle_tag t).tags ≠ [] ∧ (c.set_tags ts).tags ≠ [] ∧
    (c.tags = [t] → c.toggle_tag t = c) ∧ c.set_tags [] = c := by
  refine ⟨?_, ?_, ?_, ?_⟩
  · unfold Client.toggle_tag
    cases hp : list_position (fun x => x == t) c.tags with
    | none => simp
    | some i =>
      by_cases hl : c.tags.length > 1
      · simpa [hl] using eraseIdx_ne_nil i hl
      · simpa [hl] using h
  · unfold Client.set_tags
    by_cases hl : ts.length > 0
    · simpa [hl] using List.ne_nil_of_length_pos hl
    · simpa [hl] using h
  · intro hc
    unfold Client.toggle_tag
    simp [hc, list_position]
  · simp [Client.set_tags]

/-- Witness for C5 at a concrete client. -/
theorem C5_witness :
    ((Client.new 1 [0] ⟨0, "", []⟩).toggle_tag 0).tags ≠ [] ∧
    ((Client.new 1 [0] ⟨0, "", []⟩).set_tags [2, 3]).tags ≠ [] ∧
    ((Client.new 1 [0] ⟨0, "", []⟩).tags = [0] →
      (Client.new 1 [0] ⟨0, "", []⟩).toggle_tag 0 = Client.new 1 [0] ⟨0, "", []⟩) ∧
    (Client.new 1 [0] ⟨0, "", []⟩).set_tags [] = Client.new 1 [0] ⟨0, "", []⟩ :=
  C5_client_tags_never_emptied (Client.new 1 [0] ⟨0, "", []⟩) 0 [2, 3] (by decide)

/-- Claim C10: `TagSet::toggle_tag` has no last-tag guard; toggling the only
tag leaves the tag list empty. -/
theorem C10_tagset_toggle_tag_can_empty {L : Type} (lay : L) (t : Tag) :
    ((⟨[t], lay⟩ : TagSet L).toggle_tag t).tags = [] := by
  simp [TagSet.toggle_tag, list_position, List.eraseIdx]

/-- Counterexample to claim C2: pushing 6 distinct tag sets onto an empty
stack leaves 4 entries, but the third-oldest value is still present, so only
the 2 oldest were discarded, not 3. -/
theorem C2_counterexample :
    (((((((TagStack.new : TagStack Unit).push ⟨[1], ()⟩).push ⟨[2], ()⟩).push
        ⟨[3], ()⟩).push ⟨[4], ()⟩).push ⟨[5], ()⟩).push ⟨[6], ()⟩).tags
      = [⟨[3], ()⟩, ⟨[4], ()⟩, ⟨[5], ()⟩, ⟨[6], ()⟩] ∧
    (⟨[3], ()⟩ : TagSet Unit) ∈
      (((((((TagStack.new : TagStack Unit).push ⟨[1], ()⟩).push ⟨[2], ()⟩).push
          ⟨[3], ()⟩).push ⟨[4], ()⟩).push ⟨[5], ()⟩).push ⟨[6], ()⟩).tags := by
  decide

/-- Claim C2 as amended: 6 pushes on an initially empty `TagStack` leave
exactly 4 entries, the 2 oldest discarded, the most recent last. -/
theorem C2_amended_push_six {L : Type} (v1 v2 v3 v4 v5 v6 : TagSet L) :
    ((((((TagStack.new.push v1).push v2).push v3).push v4).push v5).push v6).tags
      = [v3, v4, v5, v6] := by
  simp [TagStack.push, TagStack.new]

/-- Claim C7: for both stack layouts and any configuration, every direction
query at an index `≤ max` answers `none` or an index `≤ max`. -/
theorem C7_direction_queries_bounded (v : VStack) (hs : HStack) (i m : Nat)
    (h : i ≤ m) :
    (∀ j, v.right_window i m = some j → j ≤ m) ∧
    (∀ j, v.left_window i m = some j → j ≤ m) ∧
    (∀ j, v.top_window i m = some j → j ≤ m) ∧
    (∀ j, v.bottom_window i m = some j → j ≤ m) ∧
    (∀ j, hs.right_window i m = some j → j ≤ m) ∧
    (∀ j, hs.left_window i m = some j → j ≤ m) ∧
    (∀ j, hs.top_window i m = some j → j ≤ m) ∧
    (∀ j, hs.bottom_window i m = some j → j ≤ m) := by
  refine ⟨?_, ?_, ?_, ?_, ?_, ?_, ?_, ?_⟩ <;>
    · intro j hj
      simp only [VStack.right_window, VStack.left_window, VStack.top_window,
        VStack.bottom_window, HStack.right_window, HStack.left_window,
        HStack.top_window, HStack.bottom_window, beq_iff_eq] at hj
      split_ifs at hj
      all_goals simp_all
      all_goals omega

/-- Witness for C7 at a concrete configuration and indices. -/
theorem C7_witness :
    (∀ j, VStack.default.right_window 0 1 = some j → j ≤ 1) ∧
    (∀ j, VStack.default.left_window 0 1 = some j → j ≤ 1) ∧
    (∀ j, VStack.default.top_window 0 1 = some j → j ≤ 1) ∧
    (∀ j, VStack.default.bottom_window 0 1 = some j → j ≤ 1) ∧
    (∀ j, HStack.default.right_window 0 1 = some j → j ≤ 1) ∧
    (∀ j, HStack.default.left_window 0 1 = some j → j ≤ 1) ∧
    (∀ j, HStack.default.top_window 0 1 = some j → j ≤ 1) ∧
    (∀ j, HStack.default.bottom_window 0 1 = some j → j ≤ 1) :=
  C7_direction_queries_bounded VStack.default HStack.default 0 1 (by decide)

/-- Claim C8: `VStack::edit_layout` master-factor policy — relative decreases
saturate at 0, relative increases saturate at the `u8` bound and then wrap
modulo 100, absolute settings wrap modulo 100. -/
theorem C8_vstack_master_factor_policy (v : VStack) (d : Int) (m : Nat) :
    (d < 0 → (v.edit_layout (.masterFactorRel d)).master_factor
        = v.master_factor - d.natAbs) ∧
    (0 ≤ d → (v.edit_layout (.masterFactorRel d)).master_factor
        = min (v.master_factor + d.natAbs) 255 % 100) ∧
    (v.edit_layout (.masterFactorAbs m)).master_factor = m % 100 := by
  refine ⟨?_, ?_, ?_⟩
  · intro hd
    simp [VStack.edit_layout, u8_saturating_sub, hd]
  · intro hd
    simp [VStack.edit_layout, u8_saturating_add, not_lt.mpr hd]
  · simp [VStack.edit_layout]

/-- Witness for C8 at concrete messages (a negative relative change, a
positive relative change that wraps, and an absolute setting). -/
theorem C8_witness :
    (VStack.default.edit_layout (.masterFactorRel (-7))).master_factor
        = VStack.default.master_factor - (-7 : Int).natAbs ∧
    (VStack.default.edit_layout (.masterFactorRel 60)).master_factor
        = min (VStack.default.master_factor + (60 : Int).natAbs) 255 % 100 ∧
    (VStack.default.edit_layout (.masterFactorAbs 123)).master_factor = 123 % 100 :=
  ⟨(C8_vstack_master_factor_policy VStack.default (-7) 123).1 (by decide),
   (C8_vstack_master_factor_policy VStack.default 60 123).2.1 (by decide),
   (C8_vstack_master_factor_policy VStack.default (-7) 123).2.2⟩

/-- Counterexample to claim C3: on a 640×480 screen the master rectangle is
318 wide (not 640/2 = 320) and the slaves are 238 high (not 480/2 = 240),
because the layout subtracts a 2-pixel border from every dimension. -/
theorem C3_counterexample :
    VStack.default.arrange 3 ⟨640, 480, 0, 0⟩ =
      [some ⟨0, 0, 318, 478⟩, some ⟨320, 0, 318, 238⟩, some ⟨320, 240, 318, 238⟩] ∧
    (318 : Nat) ≠ 640 / 2 ∧ (238 : Nat) ≠ 480 / 2 := by
  decide

/-- Claim C3 as amended: with the default 50% master factor, not inverted and
not fixed, `arrange(3, screen)` yields a master rectangle of width
`width / 2 - 2` at the screen offset, and two slave rectangles of height
`height / 2 - 2` placed horizontally after the master region at
`x = width / 2 + offset_x` (the bounds keep every `u16` operation from
wrapping). -/
theorem C3_amended_vstack_arrange_three (scr : ScreenSize)
    (hw1 : 4 ≤ scr.width) (hw2 : scr.width ≤ 1310) (hh : 4 ≤ scr.height)
    (hox : scr.offset_x + scr.width ≤ 65535)
    (hoy : scr.offset_y + scr.height ≤ 65535) :
    VStack.default.arrange 3 scr =
      [some ⟨scr.offset_x, scr.offset_y, scr.width / 2 - 2, scr.height - 2⟩,
       some ⟨scr.width / 2 + scr.offset_x, scr.offset_y,
             scr.width - scr.width / 2 - 2, scr.height / 2 - 2⟩,
       some ⟨scr.width / 2 + scr.offset_x, scr.height / 2 + scr.offset_y,
             scr.width - scr.width / 2 - 2, scr.height / 2 - 2⟩] := by
  obtain ⟨w, h, ox, oy⟩ := scr
  simp only at hw1 hw2 hh hox hoy ⊢
  have h1 : 50 * w % 65536 = 50 * w := Nat.mod_eq_of_lt (by omega)
  have h2 : 50 * w / 100 = w / 2 := by omega
  unfold VStack.arrange VStack.default
  norm_num [List.range_succ, u16_add, u16_sub, u16_mul, h1, h2]
  omega

/-! ### Claims about the client registry operations -/

/-- Claim C1 concerns the focus round trip; the code computes the new index
as `(current_index as isize + offset) as usize % len`, which at index 0 with
offset `-1` wraps through `2^64 - 1`.  For a 3-member view
`(2^64 - 1) % 3 = 0`, so `focus_prev` at the first position stays put and the
subsequent `focus_next` moves focus away: the round trip does not restore the
original focus.  This theorem evaluates the code at that failing input: three
clients (windows 10, 11, 12) on tag 0, focus initially on window 10. -/
theorem C1_focus_prev_next_round_trip_fails :
    ((((ClientSet.new.add (Client.new 10 [0] ⟨0, "", []⟩)).add
        (Client.new 11 [0] ⟨0, "", []⟩)).add
        (Client.new 12 [0] ⟨0, "", []⟩)).get_order_or_insert [0]).2
      = (some 10, [10, 11, 12]) ∧
    (((((ClientSet.new.add (Client.new 10 [0] ⟨0, "", []⟩)).add
        (Client.new 11 [0] ⟨0, "", []⟩)).add
        (Client.new 12 [0] ⟨0, "", []⟩)).focus_prev (⟨[0], ()⟩ : TagSet Unit)).bind
      (fun s => s.focus_next (⟨[0], ()⟩ : TagSet Unit))).bind
      (fun s => s.get_focused_window [0]) = some 11 := by
  constructor
  · rfl
  · rfl

/-- Claim C4: `add` appends the new client as the last reference of every
pre-existing order entry whose key intersects its tags and focuses it there;
entries whose key does not intersect are unchanged. -/
theorem C4_add_updates_matching_entries (s : ClientSet) (c : Client)
    (tags : List Tag) (e : OrderEntry) (h : s.order_lookup tags = some e) :
    (s.add c).order_lookup tags =
      some (if c.match_tags tags then (some c.window, e.2 ++ [c.window]) else e) := by
  obtain ⟨cl, ord⟩ := s
  unfold ClientSet.order_lookup ClientSet.add at *
  simp only at h ⊢
  induction ord with
  | nil => simp at h
  | cons p rest ih =>
    by_cases hp : p.1 = tags
    · subst hp
      rw [List.find?_cons_of_pos _ (by simp)] at h
      have he : e = p.2 := by simpa using h.symm
      subst he
      rw [List.map_cons,
        List.find?_cons_of_pos _ (by by_cases hc : c.match_tags p.1 <;> simp [hc])]
      by_cases hc : c.match_tags p.1 <;> simp [hc]
    · rw [List.find?_cons_of_neg _ (by simp [hp])] at h
      rw [List.map_cons,
        List.find?_cons_of_neg _ (by by_cases hc : c.match_tags p.1 <;> simp [hc, hp])]
      exact ih h

/-- Witness for C4: a set owning window 10 with a materialized entry for
tag 0; adding window 11 (also on tag 0) appends and focuses it. -/
theorem C4_witness :
    (((ClientSet.new.add (Client.new 10 [0] ⟨0, "", []⟩)).get_order_or_insert
        [0]).1.add (Client.new 11 [0] ⟨0, "", []⟩)).order_lookup [0] =
      some (if (Client.new 11 [0] ⟨0, "", []⟩).match_tags [0] then
        (some (Client.new 11 [0] ⟨0, "", []⟩).window,
         (some 10, [10]).2 ++ [(Client.new 11 [0] ⟨0, "", []⟩).window])
      else (some 10, [10])) :=
  C4_add_updates_matching_entries
    ((ClientSet.new.add (Client.new 10 [0] ⟨0, "", []⟩)).get_order_or_insert [0]).1
    (Client.new 11 [0] ⟨0, "", []⟩) [0] (some 10, [10]) (by rfl)

/-- Claim C6: `remove` of an unknown window returns `false` and leaves the
set unchanged; `update_client` of an unknown window returns `none` for every
mutator and leaves the set unchanged. -/
theorem C6_unknown_window_is_noop (s : ClientSet) (w : Window)
    (h : s.get_client_by_window w = none) :
    s.remove w = (false, s) ∧
    ∀ f : Client → Client × WmCommand, s.update_client w f = (none, s) := by
  constructor
  · have hany : s.clients.any (fun p => p.1 == w) = false := by
      unfold ClientSet.get_client_by_window at h
      rw [Option.map_eq_none'] at h
      rw [List.find?_eq_none] at h
      simp only [List.any_eq_false]
      intro x hx
      simpa using h x hx
    unfold ClientSet.remove
    simp [hany]
  · intro f
    unfold ClientSet.update_client
    rw [h]

/-- Witness for C6: a set owning only window 10 queried at window 99. -/
theorem C6_witness :
    (ClientSet.new.add (Client.new 10 [0] ⟨0, "", []⟩)).remove 99 =
      (false, ClientSet.new.add (Client.new 10 [0] ⟨0, "", []⟩)) ∧
    ∀ f : Client → Client × WmCommand,
      (ClientSet.new.add (Client.new 10 [0] ⟨0, "", []⟩)).update_client 99 f =
        (none, ClientSet.new.add (Client.new 10 [0] ⟨0, "", []⟩)) :=
  C6_unknown_window_is_noop (ClientSet.new.add (Client.new 10 [0] ⟨0, "", []⟩)) 99
    (by rfl)

/-! ### The reference invariant behind the navigation unwraps (C9) -/

theorem mem_of_head_eq {l : List α} {a : α} (h : l.head? = some a) : a ∈ l := by
  cases l <;> simp_all

theorem list_position_isSome_of_mem {p : α → Bool} {l : List α} {x : α}
    (hx : x ∈ l) (hp : p x = true) : (list_position p l).isSome = true := by
  induction l with
  | nil => cases hx
  | cons a t ih =>
    by_cases pa : p a
    · simp [list_position, pa]
    · rcases List.mem_cons.mp hx with rfl | hmem
      · exact absurd hp pa
      · simp [list_position, pa, Option.isSome_map, ih hmem]

theorem list_position_lt_length {p : α → Bool} {l : List α} {i : Nat}
    (h : list_position p l = some i) : i < l.length := by
  induction l generalizing i with
  | nil => simp [list_position] at h
  | cons a t ih =>
    simp only [List.length_cons]
    by_cases pa : p a
    · simp [list_position, pa] at h
      omega
    · simp [list_position, pa] at h
      obtain ⟨j, hj, hji⟩ := h
      have := ih hj
      omega

theorem get_list_swap {l : List α} {i j : Nat} (hi : i < l.length)
    (hj : j < l.length) (k : Nat) :
    (list_swap l i j).get? k = l.get? (if k = i then j else if k = j then i else k) := by
  have ha : l.get? i = some l[i] := by
    rw [List.get?_eq_getElem?, List.getElem?_eq_getElem hi]
  have hb : l.get? j = some l[j] := by
    rw [List.get?_eq_getElem?, List.getElem?_eq_getElem hj]
  unfold list_swap
  rw [ha, hb]
  simp only [List.get?_eq_getElem?, List.getElem?_set, List.length_set]
  by_cases hkj : k = j <;> by_cases hki : k = i
  · simp_all [List.getElem?_eq_getElem]
  · simp_all [List.getElem?_eq_getElem]
  · simp_all [List.getElem?_eq_getElem]
  · rw [if_neg (fun hh => hkj hh.symm), if_neg (fun hh => hki hh.symm),
      if_neg hki, if_neg hkj]

theorem mem_list_swap {l : List α} {i j : Nat} {x : α} (hi : i < l.length)
    (hj : j < l.length) : x ∈ list_swap l i j ↔ x ∈ l := by
  constructor <;> intro hx
  · rw [List.mem_iff_get?] at hx ⊢
    obtain ⟨k, hk⟩ := hx
    rw [get_list_swap hi hj] at hk
    exact ⟨_, hk⟩
  · rw [List.mem_iff_get?] at hx ⊢
    obtain ⟨k, hk⟩ := hx
    refine ⟨if k = i then j else if k = j then i else k, ?_⟩
    rw [get_list_swap hi hj]
    split_ifs <;> simp_all

theorem assoc_find_eq_of_mem {K V : Type} [BEq K] [LawfulBEq K] {l : List (K × V)}
    {q : K × V} {t : K} (hnd : (l.map Prod.fst).Nodup) (hq : q ∈ l) (hk : q.1 = t) :
    l.find? (fun p => p.1 == t) = some q := by
  induction l with
  | nil => cases hq
  | cons a rest ih =>
    rw [List.map_cons] at hnd
    have hnd2 := List.nodup_cons.mp hnd
    rcases List.mem_cons.mp hq with rfl | hmem
    · exact List.find?_cons_of_pos _ (by simp [hk])
    · have hne : ¬(a.1 == t) = true := by
        intro hat
        apply hnd2.1
        rw [eq_of_beq hat, ← hk]
        exact List.mem_map_of_mem Prod.fst hmem
      rw [List.find?_cons_of_neg (p := fun x => x.1 == t) rest hne]
      exact ih hnd2.2 hmem

theorem assoc_mem_unique {K V : Type} [BEq K] [LawfulBEq K] {l : List (K × V)}
    {q q2 : K × V} (hnd : (l.map Prod.fst).Nodup) (hq : q ∈ l) (hq2 : q2 ∈ l)
    (hk : q.1 = q2.1) : q = q2 := by
  have h1 := assoc_find_eq_of_mem hnd hq hk
  have h2 := assoc_find_eq_of_mem (t := q2.1) hnd hq2 rfl
  rw [h1] at h2
  simpa using h2

theorem upgrade_isSome_iff (s : ClientSet) (r : WeakClientRef) :
    (s.upgrade r).isSome = true ↔ ∃ p ∈ s.clients, p.1 = r := by
  simp [ClientSet.upgrade, ClientSet.get_client_by_window, Option.isSome_map,
    List.find?_isSome, beq_iff_eq]

theorem live_iff_mem_keys (s : ClientSet) (r : WeakClientRef) :
    (s.upgrade r).isSome = true ↔ r ∈ s.clients.map Prod.fst := by
  rw [upgrade_isSome_iff]
  simp [List.mem_map]

theorem upgrade_congr {s s2 : ClientSet} (h : s.clients = s2.clients)
    (r : WeakClientRef) : s.upgrade r = s2.upgrade r := by
  unfold ClientSet.upgrade ClientSet.get_client_by_window
  rw [h]

/-- The per-entry invariant: every reference in the member list is live, and
a present focus reference is live and occurs in the member list. -/
def EntryInv (s : ClientSet) (e : OrderEntry) : Prop :=
  (∀ r ∈ e.2, (s.upgrade r).isSome = true) ∧
  ∀ w, e.1 = some w → (s.upgrade w).isSome = true ∧ w ∈ e.2

/-- The registry invariant: clients are stored under their own window key,
order keys are unique, and every order entry satisfies `EntryInv`. -/
def RegInv (s : ClientSet) : Prop :=
  (∀ p ∈ s.clients, (p.2).window = p.1) ∧
  (s.order.map Prod.fst).Nodup ∧
  ∀ q ∈ s.order, EntryInv s q.2

theorem entryInv_congr {s s2 : ClientSet} (h : s.clients = s2.clients)
    {e : OrderEntry} (he : EntryInv s e) : EntryInv s2 e := by
  obtain ⟨h1, h2⟩ := he
  refine ⟨fun r hr => upgrade_congr h r ▸ h1 r hr,
    fun w hw => ⟨upgrade_congr h w ▸ (h2 w hw).1, (h2 w hw).2⟩⟩

theorem add_clients_keys (cl : List (Window × Client)) (w : Window) (c : Client) :
    (insert_client cl w c).map Prod.fst =
      if cl.any (fun p => p.1 == w) then cl.map Prod.fst else cl.map Prod.fst ++ [w] := by
  unfold insert_client
  split_ifs with h
  · rw [List.map_map]
    apply List.map_congr_left
    intro q _hq
    by_cases hqw : (q.1 == w) = true
    · simp [Function.comp, hqw, eq_of_beq hqw]
    · simp [Function.comp, hqw]
  · simp

theorem map_replace_keys (cl : List (Window × Client)) (w : Window) (c2 : Client) :
    (cl.map (fun p => if p.1 == w then (p.1, c2) else p)).map Prod.fst
      = cl.map Prod.fst := by
  rw [List.map_map]
  apply List.map_congr_left
  intro q _hq
  by_cases hqw : (q.1 == w) = true <;> simp [Function.comp, hqw]

theorem live_add (s : ClientSet) (c : Client) (r : WeakClientRef) :
    ((s.add c).upgrade r).isSome = true ↔
      r = c.window ∨ (s.upgrade r).isSome = true := by
  rw [live_iff_mem_keys, live_iff_mem_keys]
  show r ∈ (insert_client s.clients c.window c).map Prod.fst ↔ _
  rw [add_clients_keys]
  split_ifs with h
  · constructor
    · exact Or.inr
    · rintro (rfl | hr)
      · obtain ⟨q, hq, hqw⟩ := List.any_eq_true.mp h
        exact eq_of_beq hqw ▸ List.mem_map_of_mem Prod.fst hq
      · exact hr
  · simp only [List.mem_append, List.mem_singleton]
    tauto

theorem live_remove (s : ClientSet) (w : Window) (r : WeakClientRef) :
    (((s.remove w).2).upgrade r).isSome = true ↔
      r ≠ w ∧ (s.upgrade r).isSome = true := by
  unfold ClientSet.remove
  split_ifs with h
  · show ((ClientSet.clean _).upgrade r).isSome = true ↔ _
    simp only [live_iff_mem_keys]
    show r ∈ (s.clients.filter _).map Prod.fst ↔ _
    simp only [List.mem_map, List.mem_filter, bne_iff_ne, ne_eq]
    constructor
    · rintro ⟨p, ⟨hp, hne⟩, rfl⟩
      exact ⟨hne, p, hp, rfl⟩
    · rintro ⟨hne, p, hp, rfl⟩
      exact ⟨p, ⟨hp, hne⟩, rfl⟩
  · show (s.upgrade r).isSome = true ↔ _
    constructor
    · intro hr
      refine ⟨?_, hr⟩
      rintro rfl
      rw [live_iff_mem_keys] at hr
      obtain ⟨p, hp, hpr⟩ := List.mem_map.mp hr
      exact h (List.any_eq_true.mpr ⟨p, hp, by simp [hpr]⟩)
    · exact And.right

theorem regInv_new : RegInv ClientSet.new := by
  refine ⟨?_, ?_, ?_⟩ <;> simp [ClientSet.new]

theorem regInv_add (s : ClientSet) (c : Client) (h : RegInv s) : RegInv (s.add c) := by
  obtain ⟨hkey, hnd, hent⟩ := h
  refine ⟨?_, ?_, ?_⟩
  · intro p hp
    have hp2 : p ∈ insert_client s.clients c.window c := hp
    unfold insert_client at hp2
    split_ifs at hp2 with hany
    · obtain ⟨q, hq, rfl⟩ := List.mem_map.mp hp2
      by_cases hqw : (q.1 == c.window) = true
      · simp [hqw]
      · simpa [hqw] using hkey q hq
    · rcases List.mem_append.mp hp2 with hp3 | hp3
      · exact hkey p hp3
      · simp only [List.mem_singleton] at hp3
        subst hp3
        rfl
  · have hkeys : ((s.add c).order).map Prod.fst = s.order.map Prod.fst := by
      show (s.order.map _).map Prod.fst = _
      rw [List.map_map]
      apply List.map_congr_left
      intro q _hq
      by_cases hm : c.match_tags q.1 = true <;> simp [Function.comp, hm]
    rw [hkeys]
    exact hnd
  · intro q hq
    have hq2 : q ∈ s.order.map (fun p =>
        if c.match_tags p.1 then (p.1, (some c.window, p.2.2 ++ [c.window])) else p) := hq
    obtain ⟨q0, hq0, rfl⟩ := List.mem_map.mp hq2
    have he0 := hent q0 hq0
    by_cases hm : c.match_tags q0.1 = true
    · rw [if_pos hm]
      refine ⟨?_, ?_⟩
      · intro r hr
        rcases List.mem_append.mp hr with hr1 | hr2
        · exact (live_add s c r).mpr (Or.inr (he0.1 r hr1))
        · simp only [List.mem_singleton] at hr2
          subst hr2
          exact (live_add s c c.window).mpr (Or.inl rfl)
      · intro w hw
        simp only [Option.some.injEq] at hw
        refine ⟨(live_add s c w).mpr (Or.inl hw.symm), ?_⟩
        rw [← hw]
        exact List.mem_append.mpr (Or.inr (by simp))
    · rw [if_neg hm]
      exact ⟨fun r hr => (live_add s c r).mpr (Or.inr (he0.1 r hr)),
        fun w hw => ⟨(live_add s c w).mpr (Or.inr (he0.2 w hw).1), (he0.2 w hw).2⟩⟩

theorem regInv_clean (sF s : ClientSet) (horder : sF.order = s.order)
    (hsub : ∀ r, (sF.upgrade r).isSome = true → (s.upgrade r).isSome = true)
    (hkeyF : ∀ p ∈ sF.clients, (p.2).window = p.1)
    (hnd : (s.order.map Prod.fst).Nodup)
    (hent : ∀ q ∈ s.order, EntryInv s q.2) :
    RegInv sF.clean := by
  refine ⟨?_, ?_, ?_⟩
  · intro p hp
    exact hkeyF p hp
  · show ((sF.order.map _).map Prod.fst).Nodup
    rw [List.map_map, horder]
    exact hnd
  · intro q hq
    obtain ⟨q0, hq0, rfl⟩ := List.mem_map.mp hq
    have he0 := hent q0 (horder ▸ hq0)
    apply entryInv_congr (rfl : sF.clients = sF.clean.clients)
    unfold ClientSet.clean_entry
    refine ⟨?_, ?_⟩
    · intro r hr
      exact (List.mem_filter.mp hr).2
    · intro w0 hw0
      simp only at hw0
      split_ifs at hw0 with hdead
      · exact ⟨(List.mem_filter.mp (mem_of_head_eq hw0)).2, mem_of_head_eq hw0⟩
      · have hliveF : (sF.upgrade w0).isSome = true := by
          rw [hw0] at hdead
          cases hup : sF.upgrade w0 <;> simp [hup] at hdead ⊢
        have hmem := (he0.2 w0 hw0).2
        have hliveS : (s.upgrade w0).isSome = true := hsub w0 hliveF
        exact ⟨hliveF, List.mem_filter.mpr ⟨hmem, hliveF⟩⟩

theorem regInv_remove (s : ClientSet) (w : Window) (h : RegInv s) :
    RegInv (s.remove w).2 := by
  obtain ⟨hkey, hnd, hent⟩ := h
  unfold ClientSet.remove
  split_ifs with hany
  · show RegInv (ClientSet.clean _)
    apply regInv_clean (s := s)
    · rfl
    · intro r hr
      rw [live_iff_mem_keys] at hr ⊢
      obtain ⟨p, hp, rfl⟩ := List.mem_map.mp hr
      exact List.mem_map_of_mem _ (List.mem_of_mem_filter hp)
    · intro p hp
      exact hkey p (List.mem_of_mem_filter hp)
    · exact hnd
    · exact hent
  · exact ⟨hkey, hnd, hent⟩

theorem fix_entry_entryInv (s2 : ClientSet) (c2 : Client) (tags : List Tag)
    (e : OrderEntry) (hc2live : (s2.upgrade c2.window).isSome = true)
    (he0 : EntryInv s2 e) : EntryInv s2 (s2.fix_entry c2 tags e) := by
  unfold ClientSet.fix_entry
  split_ifs with hm hfind
  · refine ⟨?_, ?_⟩
    · intro r hr
      exact he0.1 r (List.mem_of_mem_filter hr)
    · intro w0 hw0
      cases hq01 : e.1 with
      | none =>
        rw [hq01] at hw0
        simp only [opt_keep, opt_or] at hw0
        have hmem := mem_of_head_eq hw0
        exact ⟨he0.1 w0 (List.mem_of_mem_filter hmem), hmem⟩
      | some wc =>
        rw [hq01] at hw0
        by_cases hpred : s2.is_ref_to_client wc c2 = true
        · simp only [opt_keep, opt_or, hpred] at hw0
          have hmem := mem_of_head_eq hw0
          exact ⟨he0.1 w0 (List.mem_of_mem_filter hmem), hmem⟩
        · simp only [Bool.not_eq_true] at hpred
          simp only [opt_keep, opt_or, hpred, Bool.not_false, if_pos] at hw0
          injection hw0 with hww
          subst hww
          have hb := he0.2 wc hq01
          exact ⟨hb.1, List.mem_filter.mpr ⟨hb.2, by simp [hpred]⟩⟩
  · refine ⟨?_, ?_⟩
    · intro r hr
      rcases List.mem_append.mp hr with hr1 | hr2
      · exact he0.1 r hr1
      · simp only [List.mem_singleton] at hr2
        subst hr2
        exact hc2live
    · intro w0 hw0
      cases hq01 : e.1 with
      | none =>
        rw [hq01] at hw0
        simp only [opt_or] at hw0
        have hmem := mem_of_head_eq hw0
        rcases List.mem_append.mp hmem with hr1 | hr2
        · exact ⟨he0.1 w0 hr1, hmem⟩
        · simp only [List.mem_singleton] at hr2
          subst hr2
          exact ⟨hc2live, hmem⟩
      | some wc =>
        rw [hq01] at hw0
        simp only [opt_or] at hw0
        injection hw0 with hww
        subst hww
        have hb := he0.2 wc hq01
        exact ⟨hb.1, List.mem_append.mpr (Or.inl hb.2)⟩
  · exact he0

theorem regInv_fix (s2 : ClientSet) (c2 : Client)
    (hkey2 : ∀ p ∈ s2.clients, (p.2).window = p.1)
    (hnd2 : (s2.order.map Prod.fst).Nodup)
    (hent2 : ∀ q ∈ s2.order, EntryInv s2 q.2)
    (hc2live : (s2.upgrade c2.window).isSome = true) :
    RegInv (s2.fix_references c2) := by
  refine ⟨?_, ?_, ?_⟩
  · intro p hp
    exact hkey2 p hp
  · show ((s2.order.map _).map Prod.fst).Nodup
    rw [List.map_map]
    exact hnd2
  · intro q hq
    obtain ⟨q0, hq0, rfl⟩ := List.mem_map.mp hq
    exact entryInv_congr rfl (fix_entry_entryInv s2 c2 q0.1 q0.2 hc2live (hent2 q0 hq0))

theorem live_map_replace (cl : List (Window × Client))
    (ord : List (List Tag × OrderEntry)) (w : Window) (c2 : Client)
    (r : WeakClientRef) :
    ((ClientSet.mk (cl.map (fun p => if p.1 == w then (p.1, c2) else p)) ord).upgrade
        r).isSome = true ↔
      ((ClientSet.mk cl ord).upgrade r).isSome = true := by
  rw [live_iff_mem_keys, live_iff_mem_keys]
  show r ∈ (cl.map _).map Prod.fst ↔ r ∈ cl.map Prod.fst
  rw [map_replace_keys]

theorem regInv_update (s : ClientSet) (w : Window) (f : Client → Client × WmCommand)
    (hf : ∀ c, ((f c).1).window = c.window) (h : RegInv s) :
    RegInv (s.update_client w f).2 := by
  obtain ⟨hkey, hnd, hent⟩ := h
  unfold ClientSet.update_client
  cases hc : s.get_client_by_window w with
  | none => exact ⟨hkey, hnd, hent⟩
  | some c =>
    have hcw : c.window = w := by
      unfold ClientSet.get_client_by_window at hc
      rw [Option.map_eq_some'] at hc
      obtain ⟨p0, hp0, hp02⟩ := hc
      have hmem := List.mem_of_find?_eq_some hp0
      have hpred := List.find?_some hp0
      rw [← hp02, hkey p0 hmem]
      exact eq_of_beq hpred
    have hc2w : ((f c).1).window = w := by rw [hf c, hcw]
    show RegInv (ClientSet.fix_references _ _)
    apply regInv_fix
    · intro p hp
      obtain ⟨q, hq, rfl⟩ := List.mem_map.mp hp
      by_cases hqw : (q.1 == w) = true
      · rw [if_pos hqw]
        show ((f c).1).window = q.1
        rw [hc2w, eq_of_beq hqw]
      · rw [if_neg hqw]
        exact hkey q hq
    · show ((s.order).map Prod.fst).Nodup
      exact hnd
    · intro q hq
      obtain ⟨ha, hb⟩ := hent q hq
      refine ⟨fun r hr => (live_map_replace s.clients s.order w (f c).1 r).mpr (ha r hr),
        fun w0 hw0 => ⟨(live_map_replace s.clients s.order w (f c).1 w0).mpr (hb w0 hw0).1,
          (hb w0 hw0).2⟩⟩
    · rw [hc2w]
      apply (live_map_replace s.clients s.order w (f c).1 w).mpr
      show (s.upgrade w).isSome = true
      simp [ClientSet.upgrade, hc]

theorem get_order_spec (s : ClientSet) (tags : List Tag) (h : RegInv s) :
    RegInv (s.get_order_or_insert tags).1 ∧
    ((s.get_order_or_insert tags).1).order_lookup tags
      = some (s.get_order_or_insert tags).2 ∧
    EntryInv (s.get_order_or_insert tags).1 (s.get_order_or_insert tags).2 ∧
    (s.get_order_or_insert tags).1.clients = s.clients := by
  obtain ⟨hkey, hnd, hent⟩ := h
  unfold ClientSet.get_order_or_insert
  cases hl : s.order_lookup tags with
  | some e =>
    simp only [hl]
    have hee : EntryInv s e := by
      unfold ClientSet.order_lookup at hl
      rw [Option.map_eq_some'] at hl
      obtain ⟨q0, hq0, hq02⟩ := hl
      rw [← hq02]
      exact hent q0 (List.mem_of_find?_eq_some hq0)
    exact ⟨⟨hkey, hnd, hent⟩, trivial, hee, trivial⟩
  | none =>
    simp only [hl]
    have hfind : s.order.find? (fun p => p.1 == tags) = none := by
      unfold ClientSet.order_lookup at hl
      rwa [Option.map_eq_none'] at hl
    have hnotmem : tags ∉ s.order.map Prod.fst := by
      intro hmem
      obtain ⟨q, hq, hq1⟩ := List.mem_map.mp hmem
      rw [List.find?_eq_none] at hfind
      exact hfind q hq (by simp [hq1])
    have hlive : ∀ r ∈ (s.clients.filter
        (fun p => (p.2).match_tags tags)).map (fun p => p.1),
        (s.upgrade r).isSome = true := by
      intro r hr
      obtain ⟨p, hp, rfl⟩ := List.mem_map.mp hr
      rw [upgrade_isSome_iff]
      exact ⟨p, List.mem_of_mem_filter hp, rfl⟩
    refine ⟨⟨hkey, ?_, ?_⟩, ?_, ?_, trivial⟩
    · show ((s.order ++ [_]).map Prod.fst).Nodup
      rw [List.map_append]
      simp [List.nodup_append, hnd, hnotmem]
    · intro q hq
      rcases List.mem_append.mp hq with hq1 | hq2
      · exact entryInv_congr rfl (hent q hq1)
      · simp only [List.mem_singleton] at hq2
        subst hq2
        refine entryInv_congr rfl ⟨fun r hr => hlive r hr, fun w0 hw0 =>
          ⟨hlive w0 (mem_of_head_eq hw0), mem_of_head_eq hw0⟩⟩
    · show (((s.order ++ [_]).find? _).map Prod.snd) = _
      rw [List.find?_append, hfind]
      simp [List.find?]
    · refine entryInv_congr rfl ⟨fun r hr => hlive r hr, fun w0 hw0 =>
        ⟨hlive w0 (mem_of_head_eq hw0), mem_of_head_eq hw0⟩⟩

theorem regInv_set_focus (s1 : ClientSet) (tags : List Tag) (nc : WeakClientRef)
    (h1 : RegInv s1)
    (hmem : ∀ q ∈ s1.order, q.1 = tags →
      nc ∈ q.2.2 ∧ (s1.upgrade nc).isSome = true) :
    RegInv { s1 with order := s1.order.map (fun p =>
      if p.1 == tags then (p.1, (some nc, p.2.2)) else p) } := by
  obtain ⟨hkey, hnd, hent⟩ := h1
  refine ⟨hkey, ?_, ?_⟩
  · show ((s1.order.map _).map Prod.fst).Nodup
    rw [List.map_map]
    have hkeys : s1.order.map (Prod.fst ∘ fun p =>
        if p.1 == tags then (p.1, (some nc, p.2.2)) else p) = s1.order.map Prod.fst := by
      apply List.map_congr_left
      intro q _hq
      by_cases hqt : (q.1 == tags) = true <;> simp [Function.comp, hqt]
    rw [hkeys]
    exact hnd
  · intro q hq
    obtain ⟨q0, hq0, rfl⟩ := List.mem_map.mp hq
    apply entryInv_congr (rfl : s1.clients = _)
    by_cases hqt : (q0.1 == tags) = true
    · rw [if_pos hqt]
      have hm := hmem q0 hq0 (eq_of_beq hqt)
      refine ⟨(hent q0 hq0).1, fun w1 hw1 => ?_⟩
      injection hw1 with hww
      subst hww
      exact ⟨hm.2, hm.1⟩
    · rw [if_neg hqt]
      exact hent q0 hq0

theorem regInv_swap_entry (s1 : ClientSet) (tags : List Tag) (i j : Nat)
    (h1 : RegInv s1)
    (hbound : ∀ q ∈ s1.order, q.1 = tags → i < q.2.2.length ∧ j < q.2.2.length) :
    RegInv { s1 with order := s1.order.map (fun p =>
      if p.1 == tags then (p.1, (p.2.1, list_swap p.2.2 i j)) else p) } := by
  obtain ⟨hkey, hnd, hent⟩ := h1
  refine ⟨hkey, ?_, ?_⟩
  · show ((s1.order.map _).map Prod.fst).Nodup
    rw [List.map_map]
    have hkeys : s1.order.map (Prod.fst ∘ fun p =>
        if p.1 == tags then (p.1, (p.2.1, list_swap p.2.2 i j)) else p)
          = s1.order.map Prod.fst := by
      apply List.map_congr_left
      intro q _hq
      by_cases hqt : (q.1 == tags) = true <;> simp [Function.comp, hqt]
    rw [hkeys]
    exact hnd
  · intro q hq
    obtain ⟨q0, hq0, rfl⟩ := List.mem_map.mp hq
    apply entryInv_congr (rfl : s1.clients = _)
    by_cases hqt : (q0.1 == tags) = true
    · rw [if_pos hqt]
      obtain ⟨hi, hj⟩ := hbound q0 hq0 (eq_of_beq hqt)
      refine ⟨fun r hr => (hent q0 hq0).1 r ((mem_list_swap hi hj).mp hr),
        fun w1 hw1 => ?_⟩
      have hb := (hent q0 hq0).2 w1 hw1
      exact ⟨hb.1, (mem_list_swap hi hj).mpr hb.2⟩
    · rw [if_neg hqt]
      exact hent q0 hq0

theorem order_entry_unique (s1 : ClientSet) (tags : List Tag) (e : OrderEntry)
    (hnd : (s1.order.map Prod.fst).Nodup)
    (hlook : s1.order_lookup tags = some e) :
    ∀ q ∈ s1.order, q.1 = tags → q.2 = e := by
  intro q hq hqt
  unfold ClientSet.order_lookup at hlook
  rw [Option.map_eq_some'] at hlook
  obtain ⟨qf, hfind, hsnd⟩ := hlook
  have hqf_mem := List.mem_of_find?_eq_some hfind
  have hpq := List.find?_some hfind
  have hqf_t : qf.1 = tags := eq_of_beq hpq
  have hqq := assoc_mem_unique hnd hq hqf_mem (by rw [hqt, hqf_t])
  rw [hqq, hsnd]

theorem focus_offset_spec (s : ClientSet) (tags : List Tag) (off : Int)
    (h : RegInv s) : ∃ s2, s.focus_offset tags off = some s2 ∧ RegInv s2 := by
  obtain ⟨h1, hlook, hentry, _hcl⟩ := get_order_spec s tags h
  simp only [ClientSet.focus_offset]
  cases hcur : ((s.get_order_or_insert tags).2.1).bind
      (fun c => (((s.get_order_or_insert tags).1).upgrade c).map Client.window) with
  | none => exact ⟨_, rfl, h1⟩
  | some cw =>
    rw [Option.bind_eq_some] at hcur
    obtain ⟨w0, hw0, hup⟩ := hcur
    rw [Option.map_eq_some'] at hup
    obtain ⟨c0, hc0, hc0w⟩ := hup
    have hw0e := hentry.2 w0 hw0
    have hpred : (((((s.get_order_or_insert tags).1).upgrade w0).map
        (fun r => r.window == cw)).getD false) = true := by
      rw [hc0]
      simp [hc0w]
    have hsome := list_position_isSome_of_mem (p := fun client =>
      ((((s.get_order_or_insert tags).1).upgrade client).map
        (fun r => r.window == cw)).getD false) hw0e.2 hpred
    rw [Option.isSome_iff_exists] at hsome
    obtain ⟨i, hi⟩ := hsome
    simp only [hi]
    cases hget : ((s.get_order_or_insert tags).2.2).get?
        (usize_of_isize ((i : Int) + off) % ((s.get_order_or_insert tags).2.2).length) with
    | none => exact ⟨_, rfl, h1⟩
    | some nc =>
      refine ⟨_, rfl, ?_⟩
      apply regInv_set_focus _ tags nc h1
      intro q hq hqt
      have hqe := order_entry_unique _ tags _ h1.2.1 hlook q hq hqt
      exact ⟨hqe ▸ List.get?_mem hget, hentry.1 nc (List.get?_mem hget)⟩

theorem swap_offset_spec (s : ClientSet) (tags : List Tag) (off : Int)
    (h : RegInv s) : ∃ s2, s.swap_offset tags off = some s2 ∧ RegInv s2 := by
  obtain ⟨h1, hlook, hentry, _hcl⟩ := get_order_spec s tags h
  simp only [ClientSet.swap_offset]
  cases hcur : ((s.get_order_or_insert tags).2.1).bind
      (fun c => (((s.get_order_or_insert tags).1).upgrade c).map Client.window) with
  | none => exact ⟨_, rfl, h1⟩
  | some cw =>
    rw [Option.bind_eq_some] at hcur
    obtain ⟨w0, hw0, hup⟩ := hcur
    rw [Option.map_eq_some'] at hup
    obtain ⟨c0, hc0, hc0w⟩ := hup
    have hw0e := hentry.2 w0 hw0
    have hpred : (((((s.get_order_or_insert tags).1).upgrade w0).map
        (fun r => r.window == cw)).getD false) = true := by
      rw [hc0]
      simp [hc0w]
    have hsome := list_position_isSome_of_mem (p := fun client =>
      ((((s.get_order_or_insert tags).1).upgrade client).map
        (fun r => r.window == cw)).getD false) hw0e.2 hpred
    rw [Option.isSome_iff_exists] at hsome
    obtain ⟨i, hi⟩ := hsome
    simp only [hi]
    refine ⟨_, rfl, ?_⟩
    apply regInv_swap_entry _ tags _ _ h1
    intro q hq hqt
    have hqe := order_entry_unique _ tags _ h1.2.1 hlook q hq hqt
    have hilt : i < ((s.get_order_or_insert tags).2.2).length :=
      list_position_lt_length hi
    rw [hqe]
    exact ⟨hilt, Nat.mod_lt _ (by omega)⟩

theorem focus_direction_spec (s : ClientSet) (tags : List Tag)
    (focus_func : Nat → Nat → Option Nat) (h : RegInv s) :
    ∃ s2, s.focus_direction tags focus_func = some s2 ∧ RegInv s2 := by
  obtain ⟨h1, hlook, hentry, _hcl⟩ := get_order_spec s tags h
  simp only [ClientSet.focus_direction]
  cases hcur : ((s.get_order_or_insert tags).2.1).bind
      (fun c => (((s.get_order_or_insert tags).1).upgrade c).map Client.window) with
  | none => exact ⟨_, rfl, h1⟩
  | some cw =>
    rw [Option.bind_eq_some] at hcur
    obtain ⟨w0, hw0, hup⟩ := hcur
    rw [Option.map_eq_some'] at hup
    obtain ⟨c0, hc0, hc0w⟩ := hup
    have hw0e := hentry.2 w0 hw0
    have hpred : (((((s.get_order_or_insert tags).1).upgrade w0).map
        (fun r => r.window == cw)).getD false) = true := by
      rw [hc0]
      simp [hc0w]
    have hsome := list_position_isSome_of_mem (p := fun client =>
      ((((s.get_order_or_insert tags).1).upgrade client).map
        (fun r => r.window == cw)).getD false) hw0e.2 hpred
    rw [Option.isSome_iff_exists] at hsome
    obtain ⟨i, hi⟩ := hsome
    simp only [hi]
    cases hff : focus_func i (((s.get_order_or_insert tags).2.2).length - 1) with
    | none => exact ⟨_, rfl, h1⟩
    | some ni =>
      show ∃ s2, (match ((s.get_order_or_insert tags).2.2).get? ni with
        | some new_client =>
            some { clients := (s.get_order_or_insert tags).1.clients,
                   order := ((s.get_order_or_insert tags).1.order).map
                     (fun p => if p.1 == tags then (p.1, (some new_client, p.2.2)) else p) }
        | none => some (s.get_order_or_insert tags).1) = some s2 ∧ RegInv s2
      cases hget : ((s.get_order_or_insert tags).2.2).get? ni with
      | none => exact ⟨_, rfl, h1⟩
      | some nc =>
        refine ⟨_, rfl, ?_⟩
        apply regInv_set_focus _ tags nc h1
        intro q hq hqt
        have hqe := order_entry_unique _ tags _ h1.2.1 hlook q hq hqt
        exact ⟨hqe ▸ List.get?_mem hget, hentry.1 nc (List.get?_mem hget)⟩

theorem swap_direction_spec (s : ClientSet) (tags : List Tag)
    (focus_func : Nat → Nat → Option Nat) (h : RegInv s) :
    ∃ s2, s.swap_direction tags focus_func = some s2 ∧ RegInv s2 := by
  obtain ⟨h1, hlook, hentry, _hcl⟩ := get_order_spec s tags h
  simp only [ClientSet.swap_direction]
  cases hcur : ((s.get_order_or_insert tags).2.1).bind
      (fun c => (((s.get_order_or_insert tags).1).upgrade c).map Client.window) with
  | none => exact ⟨_, rfl, h1⟩
  | some cw =>
    rw [Option.bind_eq_some] at hcur
    obtain ⟨w0, hw0, hup⟩ := hcur
    rw [Option.map_eq_some'] at hup
    obtain ⟨c0, hc0, hc0w⟩ := hup
    have hw0e := hentry.2 w0 hw0
    have hpred : (((((s.get_order_or_insert tags).1).upgrade w0).map
        (fun r => r.window == cw)).getD false) = true := by
      rw [hc0]
      simp [hc0w]
    have hsome := list_position_isSome_of_mem (p := fun client =>
      ((((s.get_order_or_insert tags).1).upgrade client).map
        (fun r => r.window == cw)).getD false) hw0e.2 hpred
    rw [Option.isSome_iff_exists] at hsome
    obtain ⟨i, hi⟩ := hsome
    simp only [hi]
    cases hff : focus_func i (((s.get_order_or_insert tags).2.2).length - 1) with
    | none => exact ⟨_, rfl, h1⟩
    | some ni =>
      show ∃ s2, (if ni < ((s.get_order_or_insert tags).2.2).length then
          some { clients := (s.get_order_or_insert tags).1.clients,
                 order := ((s.get_order_or_insert tags).1.order).map
                   (fun p => if p.1 == tags then (p.1, (p.2.1, list_swap p.2.2 i ni)) else p) }
        else some (s.get_order_or_insert tags).1) = some s2 ∧ RegInv s2
      by_cases hlt : ni < ((s.get_order_or_insert tags).2.2).length
      · rw [if_pos hlt]
        refine ⟨_, rfl, ?_⟩
        apply regInv_swap_entry _ tags _ _ h1
        intro q hq hqt
        have hqe := order_entry_unique _ tags _ h1.2.1 hlook q hq hqt
        rw [hqe]
        exact ⟨list_position_lt_length hi, hlt⟩
      · rw [if_neg hlt]
        exact ⟨_, rfl, h1⟩

/-- States reachable through the `ClientSet` operations, starting from the
empty registry.  `update_client` steps use window-preserving mutators, which
is what every caller in `window_system.rs` passes (they retag or toggle
flags, never change the window identity the client is keyed under). -/
inductive Reachable : ClientSet → Prop where
  | new : Reachable ClientSet.new
  | add : Reachable s → Reachable (s.add c)
  | remove : Reachable s → Reachable (s.remove w).2
  | update : (∀ c, ((f c).1).window = c.window) → Reachable s →
      Reachable (s.update_client w f).2
  | get_order : Reachable s → Reachable (s.get_order_or_insert tags).1
  | focus_offset : Reachable s → s.focus_offset tags off = some s2 → Reachable s2
  | swap_offset : Reachable s → s.swap_offset tags off = some s2 → Reachable s2
  | focus_direction : Reachable s → s.focus_direction tags f = some s2 → Reachable s2
  | swap_direction : Reachable s → s.swap_direction tags f = some s2 → Reachable s2

theorem reachable_regInv {s : ClientSet} (h : Reachable s) : RegInv s := by
  induction h with
  | new => exact regInv_new
  | add _hr ih => exact regInv_add _ _ ih
  | remove _hr ih => exact regInv_remove _ _ ih
  | update hf _hr ih => exact regInv_update _ _ _ hf ih
  | get_order _hr ih => exact (get_order_spec _ _ ih).1
  | focus_offset _hr heq ih =>
    obtain ⟨s2, heq2, hinv⟩ := focus_offset_spec _ _ _ ih
    obtain rfl := Option.some.inj (heq2.symm.trans heq)
    exact hinv
  | swap_offset _hr heq ih =>
    obtain ⟨s2, heq2, hinv⟩ := swap_offset_spec _ _ _ ih
    obtain rfl := Option.some.inj (heq2.symm.trans heq)
    exact hinv
  | focus_direction _hr heq ih =>
    obtain ⟨s2, heq2, hinv⟩ := focus_direction_spec _ _ _ ih
    obtain rfl := Option.some.inj (heq2.symm.trans heq)
    exact hinv
  | swap_direction _hr heq ih =>
    obtain ⟨s2, heq2, hinv⟩ := swap_direction_spec _ _ _ ih
    obtain rfl := Option.some.inj (heq2.symm.trans heq)
    exact hinv

/-- Claim C9: on every state reachable through the `ClientSet` operations,
whenever an order entry's focus reference upgrades to a live client, that
client's window occurs in the entry's reference list; consequently the
`position(..).unwrap()` inside `focus_offset`, `swap_offset`,
`focus_direction` and `swap_direction` never panics (the modelled operations
never return `none`). -/
theorem C9_reachable_focus_invariant_no_panic (s : ClientSet) (h : Reachable s) :
    (∀ q ∈ s.order, ∀ w, q.2.1 = some w →
      (s.upgrade w).isSome = true → w ∈ q.2.2) ∧
    (∀ tags off, (s.focus_offset tags off).isSome = true) ∧
    (∀ tags off, (s.swap_offset tags off).isSome = true) ∧
    (∀ tags f, (s.focus_direction tags f).isSome = true) ∧
    (∀ tags f, (s.swap_direction tags f).isSome = true) := by
  have hinv := reachable_regInv h
  refine ⟨?_, ?_, ?_, ?_, ?_⟩
  · intro q hq w hw _hlive
    exact ((hinv.2.2 q hq).2 w hw).2
  · intro tags off
    obtain ⟨s2, heq, _⟩ := focus_offset_spec s tags off hinv
    rw [heq]
    rfl
  · intro tags off
    obtain ⟨s2, heq, _⟩ := swap_offset_spec s tags off hinv
    rw [heq]
    rfl
  · intro tags f
    obtain ⟨s2, heq, _⟩ := focus_direction_spec s tags f hinv
    rw [heq]
    rfl
  · intro tags f
    obtain ⟨s2, heq, _⟩ := swap_direction_spec s tags f hinv
    rw [heq]
    rfl

/-- Witness for C9 at a concrete reachable state: the empty registry after
adding one client. -/
theorem C9_witness :
    (∀ q ∈ (ClientSet.new.add (Client.new 10 [0] ⟨0, "", []⟩)).order, ∀ w,
      q.2.1 = some w →
      ((ClientSet.new.add (Client.new 10 [0] ⟨0, "", []⟩)).upgrade w).isSome = true →
      w ∈ q.2.2) ∧
    (∀ tags off, ((ClientSet.new.add (Client.new 10 [0] ⟨0, "", []⟩)).focus_offset
      tags off).isSome = true) ∧
    (∀ tags off, ((ClientSet.new.add (Client.new 10 [0] ⟨0, "", []⟩)).swap_offset
      tags off).isSome = true) ∧
    (∀ tags f, ((ClientSet.new.add (Client.new 10 [0] ⟨0, "", []⟩)).focus_direction
      tags f).isSome = true) ∧
    (∀ tags f, ((ClientSet.new.add (Client.new 10 [0] ⟨0, "", []⟩)).swap_direction
      tags f).isSome = true) :=
  C9_reachable_focus_invariant_no_panic
    (ClientSet.new.add (Client.new 10 [0] ⟨0, "", []⟩))
    (Reachable.add Reachable.new)

/-- Witness for the amended C3 at a concrete 640 by 480 screen with no
offsets. -/
theorem C3_amended_witness :
    VStack.default.arrange 3 ⟨640, 480, 0, 0⟩ =
      [some ⟨0, 0, 640 / 2 - 2, 480 - 2⟩,
       some ⟨640 / 2 + 0, 0, 640 - 640 / 2 - 2, 480 / 2 - 2⟩,
       some ⟨640 / 2 + 0, 480 / 2 + 0, 640 - 640 / 2 - 2, 480 / 2 - 2⟩] :=
  C3_amended_vstack_arrange_three ⟨640, 480, 0, 0⟩ (by decide) (by decide)
    (by decide) (by decide) (by decide)
